import Mathlib

/-!
Verification development for the developer-portfolio-assistant repository.

Shallow embedding of the three components the claims concern:
* `ContextManager` (src/dpa_agent/context_manager.py): a token-budgeted
  rolling buffer with three compaction strategies;
* `LongRunningOperation` (src/dpa_agent/long_running.py): a checkpointed
  pause/resume state machine with dict serialization;
* `A2AProtocol` (src/dpa_agent/a2a_protocol.py): an in-process message
  relay with a FIFO queue.

Python machine-independent ints are modelled as `Int` (token counts,
importance scores) or `Nat` (list indices); Python dicts whose insertion
order matters are modelled as association lists; Python `datetime` values
are modelled by their ISO-8601 text (`datetime.fromisoformat` is a left
inverse of `datetime.isoformat`, so a datetime is identified with its ISO
string); raising `ValueError` is modelled with `Except`.
-/


/-- Python value stored in a `dict` (state payloads, metadata).  Only the
shapes the repository actually stores are represented: ints, strings and
nested dicts. -/
inductive Val where
  | vInt : Int → Val
  | vStr : String → Val
  | vDict : List (String × Val) → Val

/-- Python `dict` with string keys, as an insertion-ordered association
list. -/
abbrev Dict := List (String × Val)

/-- Assignment `d[k] = v` on a Python dict: overwrite in place if the key
exists (keeping its position), else append at the end. -/
def dictSet : Dict → String → Val → Dict
  | [], k, v => [(k, v)]
  | (k', v') :: rest, k, v =>
      if k' = k then (k, v) :: rest else (k', v') :: dictSet rest k v

/-- Lookup `d.get(k)` on a Python dict. -/
def dictGet : Dict → String → Option Val
  | [], _ => none
  | (k', v') :: rest, k => if k' = k then some v' else dictGet rest k

/- ===================== ContextManager ===================== -/

/-- Entry of `ContextManager.context_history`
(context_manager.py:88-95). -/
structure Entry where
  content : String
  role : String
  importance : Int
  tokens : Int
  timestamp : String
  metadata : Dict

/-- State of a `ContextManager` (context_manager.py:41-55). -/
structure ContextManager where
  max_tokens : Int
  current_tokens : Int
  context_history : List Entry
  compaction_strategy : String
  important_entries : Finset Nat

/-- Token estimate `len(content) // 4` (context_manager.py:80). -/
def estimateTokens (content : String) : Nat := content.length / 4

/-- Token count read off position `i` of a history list
(`self.context_history[i]["tokens"]`); out of range yields 0, a case the
source never reaches. -/
def tokensAt (l : List Entry) (i : Nat) : Int :=
  ((l.get? i).map Entry.tokens).getD 0

/-- One iteration of the reverse-order removal loop of
`_compact_by_importance` / `_compact_by_truncation`
(context_manager.py:156-162, 230-236): decrement `current_tokens` by the
removed entry's tokens, pop the entry, shift `important_entries` indices
above the removed index down by one. -/
def ContextManager.removeAt (cm : ContextManager) (i : Nat) : ContextManager :=
  { cm with
    current_tokens := cm.current_tokens - tokensAt cm.context_history i
    context_history := cm.context_history.eraseIdx i
    important_entries :=
      cm.important_entries.image fun idx => if i < idx then idx - 1 else idx }

/-- Collection phase shared by `_compact_by_importance` and
`_compact_by_truncation` (context_manager.py:145-153, 218-227): scan
entries oldest first, collect index `i` when `i` is not important and
`cond` holds of the entry, accumulate its tokens, and break as soon as the
running total reaches `required`.  `i` is the absolute index of the list
head, `acc` the running total.  Returns the collected indices (ascending)
and the final total. -/
def collectLoop (cond : Entry → Bool) (important : Finset Nat)
    (required : Int) : List Entry → Nat → Int → List Nat × Int
  | [], _, acc => ([], acc)
  | e :: rest, i, acc =>
      if i ∉ important ∧ cond e then
        let acc' := acc + e.tokens
        if required ≤ acc' then ([i], acc')
        else
          let r := collectLoop cond important required rest (i + 1) acc'
          (i :: r.1, r.2)
      else collectLoop cond important required rest (i + 1) acc

/-- Compaction by importance (context_manager.py:131-165): collect
non-important entries with `importance < 5`, then remove them in reverse
index order; report whether the total freed reaches `required_tokens`. -/
def ContextManager.compactByImportance (cm : ContextManager)
    (required_tokens : Int) : ContextManager × Bool :=
  let r := collectLoop (fun e => decide (e.importance < 5))
      cm.important_entries required_tokens cm.context_history 0 0
  (r.1.reverse.foldl ContextManager.removeAt cm,
    decide (required_tokens ≤ r.2))

/-- Compaction by truncation (context_manager.py:205-239): same removal
loop but the only filter is "not important". -/
def ContextManager.compactByTruncation (cm : ContextManager)
    (required_tokens : Int) : ContextManager × Bool :=
  let r := collectLoop (fun _ => true)
      cm.important_entries required_tokens cm.context_history 0 0
  (r.1.reverse.foldl ContextManager.removeAt cm,
    decide (required_tokens ≤ r.2))

/-- Loop body of `_compact_by_summarization` (context_manager.py:184-200)
rendered structurally: walk the first `n` entries (`n` counts down, `i` is
the absolute index), skip important ones, shrink any entry longer than 100
characters to its first 100 characters plus the marker, accumulate the
token delta as freed, and break once freed reaches `required`.  Returns
the rewritten list and the total freed. -/
def summarizeGo (important : Finset Nat) (required : Int) :
    Nat → Nat → Int → List Entry → List Entry × Int
  | 0, _, freed, l => (l, freed)
  | _ + 1, _, freed, [] => ([], freed)
  | n + 1, i, freed, e :: rest =>
      if i ∈ important then
        let r := summarizeGo important required n (i + 1) freed rest
        (e :: r.1, r.2)
      else
        let p :=
          if 100 < e.content.length then
            let c' := e.content.take 100 ++ "... [summarized]"
            let t' : Int := ((estimateTokens c' : Nat) : Int)
            ({ e with content := c', tokens := t' }, freed + (e.tokens - t'))
          else (e, freed)
        if required ≤ p.2 then (p.1 :: rest, p.2)
        else
          let r := summarizeGo important required n (i + 1) p.2 rest
          (p.1 :: r.1, r.2)

/-- Compaction by summarization (context_manager.py:167-203): shrink the
older half in place; `current_tokens` decreases by exactly the total
freed (the loop decrements it by each delta as it accumulates it). -/
def ContextManager.compactBySummarization (cm : ContextManager)
    (required_tokens : Int) : ContextManager × Bool :=
  let n := cm.context_history.length / 2
  let r := summarizeGo cm.important_entries required_tokens n 0 0
      cm.context_history
  ({ cm with
      context_history := r.1
      current_tokens := cm.current_tokens - r.2 },
    decide (required_tokens ≤ r.2))

/-- Strategy dispatch `compact_context` (context_manager.py:108-129);
an unknown strategy fails without mutating anything. -/
def ContextManager.compact_context (cm : ContextManager)
    (required_tokens : Int) : ContextManager × Bool :=
  if cm.compaction_strategy = "importance" then
    cm.compactByImportance required_tokens
  else if cm.compaction_strategy = "summarize" then
    cm.compactBySummarization required_tokens
  else if cm.compaction_strategy = "truncate" then
    cm.compactByTruncation required_tokens
  else (cm, false)

/-- Append phase of `add_context` (context_manager.py:88-101): push the
entry, bump `current_tokens`, and mark the new index important when
`importance >= 8`.  `now` stands for `datetime.now().isoformat()`. -/
def ContextManager.appendEntry (cm : ContextManager) (content role : String)
    (importance : Int) (metadata : Dict) (now : String) : ContextManager :=
  let estimated : Int := ((estimateTokens content : Nat) : Int)
  let history := cm.context_history ++
    [{ content := content, role := role, importance := importance,
       tokens := estimated, timestamp := now, metadata := metadata }]
  { cm with
    context_history := history
    current_tokens := cm.current_tokens + estimated
    important_entries :=
      if 8 ≤ importance then insert (history.length - 1) cm.important_entries
      else cm.important_entries }

/-- `add_context` (context_manager.py:57-106).  When the estimate would
push past `max_tokens` the configured compaction runs first; if it fails
the call returns `false` and the entry is not appended, but the mutations
compaction already made persist. -/
def ContextManager.add_context (cm : ContextManager) (content role : String)
    (importance : Int) (metadata : Dict) (now : String) :
    ContextManager × Bool :=
  let estimated : Int := ((estimateTokens content : Nat) : Int)
  if cm.max_tokens < cm.current_tokens + estimated then
    let r := cm.compact_context estimated
    if r.2 then (r.1.appendEntry content role importance metadata now, true)
    else (r.1, false)
  else (cm.appendEntry content role importance metadata now, true)

/-- `clear_context` (context_manager.py:258-263). -/
def ContextManager.clear_context (cm : ContextManager) : ContextManager :=
  { cm with
    context_history := []
    current_tokens := 0
    important_entries := ∅ }

/- ===================== LongRunningOperation ===================== -/

/-- Status of a long-running operation (long_running.py:30-38). -/
inductive OperationStatus where
  | pending | running | paused | completed | failed | cancelled
deriving DecidableEq, Repr

/-- String tag of a status (`OperationStatus.value` in long_running.py). -/
def OperationStatus.value : OperationStatus → String
  | .pending => "pending"
  | .running => "running"
  | .paused => "paused"
  | .completed => "completed"
  | .failed => "failed"
  | .cancelled => "cancelled"

/-- Inverse of `OperationStatus.value`, modelling the
`OperationStatus(data["status"])` enum constructor call, which raises on
an unknown tag (long_running.py:210). -/
def OperationStatus.fromValue : String → Option OperationStatus
  | "pending" => some .pending
  | "running" => some .running
  | "paused" => some .paused
  | "completed" => some .completed
  | "failed" => some .failed
  | "cancelled" => some .cancelled
  | _ => none

/-- Python `datetime`, identified with its ISO-8601 text: the code only
ever creates datetimes with `datetime.now()` and converts them with
`isoformat` / `fromisoformat`, which are mutually inverse, so `isoformat`
is field access and `fromisoformat` is the constructor here. -/
structure Datetime where
  iso : String
deriving DecidableEq, Repr

/-- Checkpoint record appended by `pause` (long_running.py:99-104). -/
structure Checkpoint where
  checkpoint_id : Nat
  timestamp : String
  state : Dict
  data : Dict

/-- A `LongRunningOperation` (long_running.py:41-78). -/
structure LongRunningOperation where
  operation_id : String
  operation_type : String
  status : OperationStatus
  checkpoints : List Checkpoint
  state : Dict
  created_at : Datetime
  updated_at : Datetime
  error_message : Option String

/-- Errors raised by the state machine: the invalid-transition
`ValueError`s of `pause`/`resume` (carrying the offending status) and the
no-checkpoint `ValueError` of `resume`. -/
inductive OpError where
  | invalidPause : OperationStatus → OpError
  | invalidResume : OperationStatus → OpError
  | noCheckpoint : OpError
deriving DecidableEq, Repr

/-- Constructor `__init__` (long_running.py:57-78); `initial_state or {}`
maps `none` to the empty dict.  `now` stands for `datetime.now()`. -/
def LongRunningOperation.init (operation_id operation_type : String)
    (initial_state : Option Dict) (now : Datetime) : LongRunningOperation :=
  { operation_id := operation_id
    operation_type := operation_type
    status := .pending
    checkpoints := []
    state := initial_state.getD []
    created_at := now
    updated_at := now
    error_message := none }

/-- `start` (long_running.py:80-84). -/
def LongRunningOperation.start (op : LongRunningOperation)
    (now : Datetime) : LongRunningOperation :=
  { op with status := .running, updated_at := now }

/-- `pause` (long_running.py:86-110): only from `running`; appends a
checkpoint whose id is the count of prior checkpoints and whose state is a
copy of the current state, then moves to `paused`.  The raise happens
before any mutation, so the error case returns no new state. -/
def LongRunningOperation.pause (op : LongRunningOperation)
    (checkpoint_data : Option Dict) (now : Datetime) :
    Except OpError LongRunningOperation :=
  if op.status ≠ .running then .error (.invalidPause op.status)
  else
    let checkpoint : Checkpoint :=
      { checkpoint_id := op.checkpoints.length
        timestamp := now.iso
        state := op.state
        data := checkpoint_data.getD [] }
    .ok { op with
      checkpoints := op.checkpoints ++ [checkpoint]
      status := .paused
      updated_at := now }

/-- `resume` (long_running.py:112-135): only from `paused`; raises the
no-checkpoint error on an empty checkpoint list, otherwise restores
`state` from the last checkpoint, moves to `running`, and returns the
restored state. -/
def LongRunningOperation.resume (op : LongRunningOperation)
    (now : Datetime) :
    Except OpError (LongRunningOperation × Dict) :=
  if op.status ≠ .paused then .error (.invalidResume op.status)
  else
    match op.checkpoints.getLast? with
    | none => .error .noCheckpoint
    | some last_checkpoint =>
        let op' := { op with
          state := last_checkpoint.state
          status := .running
          updated_at := now }
        .ok (op', op'.state)

/-- `complete` (long_running.py:137-148); a truthy `result` (a non-empty
dict) is stored under `"result"` in the state. -/
def LongRunningOperation.complete (op : LongRunningOperation)
    (result : Option Dict) (now : Datetime) : LongRunningOperation :=
  let st := match result with
    | some r => if r.isEmpty then op.state else dictSet op.state "result" (.vDict r)
    | none => op.state
  { op with status := .completed, state := st, updated_at := now }

/-- `fail` (long_running.py:150-160). -/
def LongRunningOperation.fail (op : LongRunningOperation)
    (error_message : String) (now : Datetime) : LongRunningOperation :=
  { op with
    status := .failed
    error_message := some error_message
    updated_at := now }

/-- `cancel` (long_running.py:162-166). -/
def LongRunningOperation.cancel (op : LongRunningOperation)
    (now : Datetime) : LongRunningOperation :=
  { op with status := .cancelled, updated_at := now }

/-- `update_state` (long_running.py:168-177). -/
def LongRunningOperation.update_state (op : LongRunningOperation)
    (key : String) (value : Val) (now : Datetime) : LongRunningOperation :=
  { op with state := dictSet op.state key value, updated_at := now }

/-- `get_state(key)` (long_running.py:179-191). -/
def LongRunningOperation.get_state (op : LongRunningOperation)
    (key : String) : Option Val :=
  dictGet op.state key

/-- Plain record produced by `to_dict` (long_running.py:193-204): status
as its string tag, timestamps as ISO-8601 text. -/
structure SerializedOp where
  operation_id : String
  operation_type : String
  status : String
  checkpoints : List Checkpoint
  state : Dict
  created_at : String
  updated_at : String
  error_message : Option String

/-- `to_dict` (long_running.py:193-204). -/
def LongRunningOperation.to_dict (op : LongRunningOperation) : SerializedOp :=
  { operation_id := op.operation_id
    operation_type := op.operation_type
    status := op.status.value
    checkpoints := op.checkpoints
    state := op.state
    created_at := op.created_at.iso
    updated_at := op.updated_at.iso
    error_message := op.error_message }

/-- Python truthiness coercion `x or {}` applied to a dict
(long_running.py:75 via the constructor call in `from_dict`). -/
def pyOrEmpty (d : Dict) : Dict := if d.isEmpty then [] else d

/-- `from_dict` (long_running.py:206-215): rebuilds through the
constructor (so `state` passes through `initial_state or {}`), then
overwrites status (raising on an unknown tag, hence `Option`),
checkpoints, timestamps and error message. -/
def LongRunningOperation.from_dict (data : SerializedOp) :
    Option LongRunningOperation :=
  (OperationStatus.fromValue data.status).map fun st =>
    { operation_id := data.operation_id
      operation_type := data.operation_type
      status := st
      checkpoints := data.checkpoints
      state := pyOrEmpty data.state
      created_at := ⟨data.created_at⟩
      updated_at := ⟨data.updated_at⟩
      error_message := data.error_message }

/-- Operations reachable from the constructor by any sequence of the
public mutators, where a raising call leaves the operation unchanged. -/
inductive Reachable : LongRunningOperation → Prop where
  | init : ∀ oid oty st now, Reachable (LongRunningOperation.init oid oty st now)
  | step_start : ∀ {op}, Reachable op → ∀ now, Reachable (op.start now)
  | step_pause : ∀ {op}, Reachable op → ∀ d now op',
      op.pause d now = .ok op' → Reachable op'
  | step_resume : ∀ {op}, Reachable op → ∀ now op' s,
      op.resume now = .ok (op', s) → Reachable op'
  | step_complete : ∀ {op}, Reachable op → ∀ r now, Reachable (op.complete r now)
  | step_fail : ∀ {op}, Reachable op → ∀ m now, Reachable (op.fail m now)
  | step_cancel : ∀ {op}, Reachable op → ∀ now, Reachable (op.cancel now)
  | step_update : ∀ {op}, Reachable op → ∀ k v now,
      Reachable (op.update_state k v now)

/- ===================== A2AProtocol ===================== -/

/-- Message types (a2a_protocol.py:32-38). -/
inductive MessageType where
  | request | response | event | broadcast
deriving DecidableEq, Repr

/-- An `A2AMessage` (a2a_protocol.py:41-79); `message_id` is
`f"{from}_{to}_{int(time.time()*1000)}"` with the clock supplied by the
caller. -/
structure A2AMessage where
  message_id : String
  from_agent : String
  to_agent : String
  message_type : MessageType
  payload : Dict
  correlation_id : Option String

/-- Message constructor (a2a_protocol.py:55-79). -/
def mkMessage (from_agent to_agent : String) (message_type : MessageType)
    (payload : Dict) (correlation_id : Option String) (timeMs : Nat) :
    A2AMessage :=
  { message_id := from_agent ++ "_" ++ to_agent ++ "_" ++ toString timeMs
    from_agent := from_agent
    to_agent := to_agent
    message_type := message_type
    payload := payload
    correlation_id := correlation_id }

/-- State of the `A2AProtocol` broker (a2a_protocol.py:118-124).  Handler
callbacks are external code; the model keeps only the registered agent
names, so it describes the queue evolution exactly whenever the invoked
handlers do not themselves mutate the queue — in particular exactly when
no agent is registered. -/
structure A2AProtocol where
  agents : List String
  message_queue : List A2AMessage
  message_history : List A2AMessage
  pending_requests : List (String × A2AMessage)

/-- `send_message` (a2a_protocol.py:148-185): append to queue and
history; requests are also recorded keyed by their message id. -/
def A2AProtocol.send_message (p : A2AProtocol) (from_agent to_agent : String)
    (message_type : MessageType) (payload : Dict)
    (correlation_id : Option String) (timeMs : Nat) :
    A2AProtocol × A2AMessage :=
  let message := mkMessage from_agent to_agent message_type payload
      correlation_id timeMs
  ({ p with
      message_queue := p.message_queue ++ [message]
      message_history := p.message_history ++ [message]
      pending_requests :=
        if message_type = .request then
          p.pending_requests ++ [(message.message_id, message)]
        else p.pending_requests },
    message)

/-- One iteration of the `while self.message_queue` loop of
`process_messages` (a2a_protocol.py:235-271): pop the head; a broadcast
is delivered to every handler, a message whose destination is registered
is delivered to it, and otherwise the message is re-appended to the tail
— but only while the queue (after the pop) holds fewer than 100 messages.
`none` means the queue was empty and the loop exits. -/
def A2AProtocol.processStep (p : A2AProtocol) : Option A2AProtocol :=
  match p.message_queue with
  | [] => none
  | message :: rest =>
      if message.to_agent = "*" then some { p with message_queue := rest }
      else if message.to_agent ∈ p.agents then
        some { p with message_queue := rest }
      else if rest.length < 100 then
        some { p with message_queue := rest ++ [message] }
      else some { p with message_queue := rest }

/-- Run up to `n` iterations of the `process_messages` loop, stopping
early if the queue empties. -/
def A2AProtocol.processIters (p : A2AProtocol) : Nat → A2AProtocol
  | 0 => p
  | n + 1 =>
      match p.processStep with
      | none => p
      | some p' => p'.processIters n

/- ===================== Token accounting (C1) ===================== -/

/-- Property of a single entry: its stored token count is the estimate of
its current content. -/
def entryEstimated (e : Entry) : Prop :=
  e.tokens = ((estimateTokens e.content : Nat) : Int)

/-- Accounting invariant of a context buffer: every entry's token count
is the estimate of its content, and `current_tokens` is the sum of the
entries' token counts. -/
def tokenInvariant (cm : ContextManager) : Prop :=
  (∀ e ∈ cm.context_history, entryEstimated e) ∧
  cm.current_tokens = (cm.context_history.map Entry.tokens).sum

/-- Concrete empty buffer with the default importance strategy, used to
instantiate hypotheses on concrete inputs. -/
def cmEmpty : ContextManager :=
  { max_tokens := 100
    current_tokens := 0
    context_history := []
    compaction_strategy := "importance"
    important_entries := ∅ }

/-- Net renumbering performed by removing the positions `ds`: an index
drops by the number of removed positions below it. -/
def shiftIdx (ds : List Nat) (p : Nat) : Nat :=
  p - (ds.filter fun j => decide (j < p)).length

/-- Reference form of "remove the entries whose absolute position is in
`ds`": walk the list with a counter and drop marked positions. -/
def eraseMarked (ds : List Nat) : List Entry → Nat → List Entry
  | [], _ => []
  | e :: rest, i =>
      if i ∈ ds then eraseMarked ds rest (i + 1)
      else e :: eraseMarked ds rest (i + 1)

/-- Collection run performed by the removal strategies on a given
buffer. -/
def collectFor (cond : Entry → Bool) (cm : ContextManager) (req : Int) :
    List Nat × Int :=
  collectLoop cond cm.important_entries req cm.context_history 0 0

/-- Buffer left behind by the removal phase of the removal strategies. -/
def removalResult (cond : Entry → Bool) (cm : ContextManager) (req : Int) :
    ContextManager :=
  (collectFor cond cm req).1.reverse.foldl ContextManager.removeAt cm

/-- Index protected from importance compaction: marked important, or
holding an entry of importance at least 8. -/
def protectedIdx (cm : ContextManager) (p : Nat) : Prop :=
  p ∈ cm.important_entries ∨
    ∃ e, cm.context_history.get? p = some e ∧ 8 ≤ e.importance

/-- Concrete two-entry buffer (one important) used to witness the
protection statement. -/
def cmProt : ContextManager :=
  { max_tokens := 40
    current_tokens := 20
    context_history :=
      [{ content := String.mk (List.replicate 40 'a')
         role := "user"
         importance := 1
         tokens := 10
         timestamp := "t1"
         metadata := [] },
       { content := String.mk (List.replicate 40 'h')
         role := "user"
         importance := 9
         tokens := 10
         timestamp := "t2"
         metadata := [] }]
    compaction_strategy := "importance"
    important_entries := {1} }

/-- Content of 40 characters: estimated 10 tokens. -/
def contentA : String := String.mk (List.replicate 40 'a')

/-- Content of 100 characters: estimated 25 tokens. -/
def contentC : String := String.mk (List.replicate 100 'c')

/-- Fresh buffer with `max_tokens = 40` under the importance strategy. -/
def cm40 : ContextManager :=
  { max_tokens := 40
    current_tokens := 0
    context_history := []
    compaction_strategy := "importance"
    important_entries := ∅ }

/-- Buffer after the first `add_context` (10 tokens, importance 1). -/
def cmStep1 : ContextManager := (cm40.add_context contentA "user" 1 [] "t1").1

/-- Buffer after the second `add_context` (10 tokens, importance 1). -/
def cmStep2 : ContextManager := (cmStep1.add_context contentA "user" 1 [] "t2").1

/-- Result of the third `add_context` (25 tokens, importance 1), which
triggers importance compaction. -/
def cmStep3 : ContextManager × Bool := cmStep2.add_context contentC "user" 1 [] "t3"

/-- Reference form of "every eligible entry removed": walk the list with
a counter, dropping exactly the entries that pass the eligibility test
(not important, and satisfying `cond`). -/
def dropEligible (cond : Entry → Bool) (important : Finset Nat) :
    List Entry → Nat → List Entry
  | [], _ => []
  | e :: rest, i =>
      if i ∉ important ∧ cond e then dropEligible cond important rest (i + 1)
      else e :: dropEligible cond important rest (i + 1)

/-- Fresh operation as constructed by `__init__`: status `pending`, no
checkpoints. -/
def opFresh : LongRunningOperation :=
  LongRunningOperation.init "op1" "portfolio_update" none ⟨"2024-01-01T00:00:00"⟩

/-- Paused operation with an empty checkpoint list, as reconstructable
from an external record claiming `paused` status. -/
def opPausedEmpty : LongRunningOperation :=
  { opFresh with status := .paused }

/-- Scenario of C6: create `"op1"`, `start`, set `x := 1`, `pause`, then
mutate `x := 2` while paused, then `resume`. -/
def opScenario : Except OpError (LongRunningOperation × Dict) :=
  ((((LongRunningOperation.init "op1" "portfolio_update" none ⟨"t0"⟩).start
      ⟨"t1"⟩).update_state "x" (.vInt 1) ⟨"t2"⟩).pause
      (some [("note", .vStr "a")]) ⟨"t3"⟩).bind
    fun op => (op.update_state "x" (.vInt 2) ⟨"t4"⟩).resume ⟨"t5"⟩

/-- Running operation used to witness the pause conjunct. -/
def opRun : LongRunningOperation :=
  ((LongRunningOperation.init "op1" "portfolio_update" none ⟨"t0"⟩).start
      ⟨"t1"⟩).update_state "x" (.vInt 1) ⟨"t2"⟩

/-- Checkpoint held by `opPausedOne`. -/
def cpZero : Checkpoint :=
  { checkpoint_id := 0
    timestamp := "t3"
    state := [("x", .vInt 1)]
    data := [] }

/-- Paused operation with one checkpoint, used to witness the resume
conjunct. -/
def opPausedOne : LongRunningOperation :=
  { opRun with status := .paused, checkpoints := [cpZero] }

/-- Event message from `"a"` to `"b"`. -/
def msgAB : A2AMessage := mkMessage "a" "b" .event [] none 0

/-- Broker state right after `send("a","b",EVENT,payload)` with no
handler registered: one queued message whose destination is unknown. -/
def protocolStuck : A2AProtocol :=
  { agents := []
    message_queue := [msgAB]
    message_history := [msgAB]
    pending_requests := [] }

/- ===================== Theorems ===================== -/

theorem sum_tokens_eraseIdx (l : List Entry) (i : Nat) :
    ((l.eraseIdx i).map Entry.tokens).sum
      = (l.map Entry.tokens).sum - tokensAt l i := by
  induction l generalizing i with
  | nil => simp [tokensAt]
  | cons e rest ih =>
    cases i with
    | zero => simp [tokensAt, List.eraseIdx]
    | succ n =>
      simp only [List.eraseIdx, List.map_cons, List.sum_cons, ih n,
        tokensAt, List.get?]
      omega

theorem removeAt_tokenInvariant (cm : ContextManager) (i : Nat)
    (h : tokenInvariant cm) : tokenInvariant (cm.removeAt i) := by
  refine ⟨fun e he => h.1 e ?_, ?_⟩
  · exact (List.eraseIdx_sublist cm.context_history i).subset he
  · simpa [ContextManager.removeAt, sum_tokens_eraseIdx] using
      congrArg (· - tokensAt cm.context_history i) h.2

theorem foldl_removeAt_tokenInvariant (ds : List Nat) (cm : ContextManager)
    (h : tokenInvariant cm) :
    tokenInvariant (ds.foldl ContextManager.removeAt cm) := by
  induction ds generalizing cm with
  | nil => exact h
  | cons d ds ih => exact ih _ (removeAt_tokenInvariant cm d h)

theorem summarizeGo_sum (important : Finset Nat) (req : Int) :
    ∀ (n i : Nat) (freed : Int) (l : List Entry),
      ((summarizeGo important req n i freed l).1.map Entry.tokens).sum
        = (l.map Entry.tokens).sum
          - ((summarizeGo important req n i freed l).2 - freed) := by
  intro n
  induction n with
  | zero => intro i freed l; simp [summarizeGo]
  | succ n ih =>
    intro i freed l
    cases l with
    | nil => simp [summarizeGo]
    | cons e rest =>
      by_cases himp : i ∈ important
      · have := ih (i + 1) freed rest
        simp only [summarizeGo, if_pos himp, List.map_cons, List.sum_cons]
        omega
      · by_cases hlen : 100 < e.content.length
        · by_cases hreq :
            req ≤ freed + (e.tokens
              - ((estimateTokens (e.content.take 100 ++ "... [summarized]") : Nat) : Int))
          · simp only [summarizeGo, if_neg himp, if_pos hlen, if_pos hreq,
              List.map_cons, List.sum_cons]
            omega
          · have := ih (i + 1)
              (freed + (e.tokens
                - ((estimateTokens (e.content.take 100 ++ "... [summarized]") : Nat) : Int)))
              rest
            simp only [summarizeGo, if_neg himp, if_pos hlen, if_neg hreq,
              List.map_cons, List.sum_cons] at this ⊢
            omega
        · by_cases hreq : req ≤ freed
          · simp only [summarizeGo, if_neg himp, if_neg hlen, if_pos hreq,
              List.map_cons, List.sum_cons]
            omega
          · have := ih (i + 1) freed rest
            simp only [summarizeGo, if_neg himp, if_neg hlen, if_neg hreq,
              List.map_cons, List.sum_cons] at this ⊢
            omega

theorem summarizeGo_estimated (important : Finset Nat) (req : Int) :
    ∀ (n i : Nat) (freed : Int) (l : List Entry),
      (∀ e ∈ l, entryEstimated e) →
      ∀ e' ∈ (summarizeGo important req n i freed l).1, entryEstimated e' := by
  intro n
  induction n with
  | zero => intro i freed l hl; simpa [summarizeGo] using hl
  | succ n ih =>
    intro i freed l hl
    cases l with
    | nil => simp [summarizeGo]
    | cons e rest =>
      have he : entryEstimated e := hl e (List.mem_cons_self e rest)
      have hrest : ∀ x ∈ rest, entryEstimated x :=
        fun x hx => hl x (List.mem_cons_of_mem e hx)
      by_cases himp : i ∈ important
      · intro e' he'
        simp only [summarizeGo, if_pos himp, List.mem_cons] at he'
        rcases he' with rfl | he'
        · exact he
        · exact ih (i + 1) freed rest hrest e' he'
      · by_cases hlen : 100 < e.content.length
        · by_cases hreq :
            req ≤ freed + (e.tokens
              - ((estimateTokens (e.content.take 100 ++ "... [summarized]") : Nat) : Int))
          · intro e' he'
            simp only [summarizeGo, if_neg himp, if_pos hlen, if_pos hreq,
              List.mem_cons] at he'
            rcases he' with rfl | he'
            · rfl
            · exact hrest e' he'
          · intro e' he'
            simp only [summarizeGo, if_neg himp, if_pos hlen, if_neg hreq,
              List.mem_cons] at he'
            rcases he' with rfl | he'
            · rfl
            · exact ih (i + 1) _ rest hrest e' he'
        · by_cases hreq : req ≤ freed
          · intro e' he'
            simp only [summarizeGo, if_neg himp, if_neg hlen, if_pos hreq,
              List.mem_cons] at he'
            rcases he' with rfl | he'
            · exact he
            · exact hrest e' he'
          · intro e' he'
            simp only [summarizeGo, if_neg himp, if_neg hlen, if_neg hreq,
              List.mem_cons] at he'
            rcases he' with rfl | he'
            · exact he
            · exact ih (i + 1) freed rest hrest e' he'

theorem appendEntry_tokenInvariant (cm : ContextManager)
    (content role : String) (importance : Int) (metadata : Dict)
    (now : String) (h : tokenInvariant cm) :
    tokenInvariant (cm.appendEntry content role importance metadata now) := by
  constructor
  · intro e he
    simp only [ContextManager.appendEntry, List.mem_append,
      List.mem_singleton] at he
    rcases he with he | rfl
    · exact h.1 e he
    · rfl
  · simp [ContextManager.appendEntry, h.2]

theorem compact_tokenInvariant (cm : ContextManager) (req : Int)
    (h : tokenInvariant cm) :
    tokenInvariant (cm.compact_context req).1 := by
  unfold ContextManager.compact_context
  split
  · exact foldl_removeAt_tokenInvariant _ cm h
  · split
    · refine ⟨fun e he => ?_, ?_⟩
      · exact summarizeGo_estimated cm.important_entries req _ 0 0
          cm.context_history h.1 e he
      · have hs := summarizeGo_sum cm.important_entries req
          (cm.context_history.length / 2) 0 0 cm.context_history
        have h2 := h.2
        simp only [ContextManager.compactBySummarization]
        omega
    · split
      · exact foldl_removeAt_tokenInvariant _ cm h
      · exact h

theorem add_context_tokenInvariant (cm : ContextManager)
    (content role : String) (importance : Int) (metadata : Dict)
    (now : String) (h : tokenInvariant cm) :
    tokenInvariant (cm.add_context content role importance metadata now).1 := by
  simp only [ContextManager.add_context]
  split
  · have hc := compact_tokenInvariant cm
      ((estimateTokens content : Nat) : Int) h
    split
    · exact appendEntry_tokenInvariant _ content role importance metadata now hc
    · exact hc
  · exact appendEntry_tokenInvariant cm content role importance metadata now h

/-- C1: for every buffer state satisfying the accounting invariant, each
of `add_context` (under any strategy, compacting — possibly shrinking
entries in place — when needed), `compact_context`, and `clear_context`
preserves it: `current_tokens` equals the sum of the entries' token
counts and every entry's token count is the estimate of its content; so
the invariant holds after every operation of every operation sequence. -/
theorem token_accounting_invariant_preserved (cm : ContextManager)
    (content role : String) (importance req : Int) (metadata : Dict)
    (now : String) (h : tokenInvariant cm) :
    tokenInvariant (cm.add_context content role importance metadata now).1 ∧
    tokenInvariant (cm.compact_context req).1 ∧
    tokenInvariant cm.clear_context :=
  ⟨add_context_tokenInvariant cm content role importance metadata now h,
   compact_tokenInvariant cm req h,
   fun e he => absurd he (List.not_mem_nil e), rfl⟩

/-- Witness: the accounting invariant holds of the empty buffer and is
preserved by each operation applied to it. -/
theorem token_accounting_invariant_preserved_witness :
    tokenInvariant cmEmpty ∧
    (tokenInvariant ((cmEmpty.add_context "hello world" "user" 1 [] "t").1) ∧
     tokenInvariant ((cmEmpty.compact_context 3).1) ∧
     tokenInvariant cmEmpty.clear_context) :=
  ⟨⟨fun e he => absurd he (List.not_mem_nil e), rfl⟩,
   token_accounting_invariant_preserved cmEmpty "hello world" "user" 1 3 [] "t"
     ⟨fun e he => absurd he (List.not_mem_nil e), rfl⟩⟩

/- ============ Removal-phase characterization (C2, C4, C9) ============ -/

theorem get?_eraseIdx_of_lt {α : Type} (l : List α) (d j : Nat) (h : j < d) :
    (l.eraseIdx d).get? j = l.get? j := by
  induction l generalizing d j with
  | nil => simp
  | cons a rest ih =>
    cases d with
    | zero => omega
    | succ d' =>
      cases j with
      | zero => simp [List.eraseIdx]
      | succ j' => simpa [List.eraseIdx] using ih d' j' (by omega)

theorem get?_eraseIdx_of_ge {α : Type} (l : List α) (d j : Nat) (h : d ≤ j) :
    (l.eraseIdx d).get? j = l.get? (j + 1) := by
  induction l generalizing d j with
  | nil => simp
  | cons a rest ih =>
    cases d with
    | zero => simp [List.eraseIdx]
    | succ d' =>
      cases j with
      | zero => omega
      | succ j' => simpa [List.eraseIdx] using ih d' j' (by omega)

theorem shiftIdx_nil (p : Nat) : shiftIdx [] p = p := rfl

theorem shiftIdx_cons_of_all_lt (d : Nat) (ds : List Nat) (p : Nat)
    (hd : d < p) (hds : ∀ j ∈ ds, j < d) :
    shiftIdx (d :: ds) p = shiftIdx ds (p - 1) := by
  have h1 : ds.filter (fun j => decide (j < p)) = ds :=
    List.filter_eq_self.mpr fun j hj => by
      have := hds j hj; simp; omega
  have h2 : ds.filter (fun j => decide (j < p - 1)) = ds :=
    List.filter_eq_self.mpr fun j hj => by
      have := hds j hj; simp; omega
  simp only [shiftIdx, List.filter, decide_eq_true_eq, if_pos hd, h1, h2]
  simp [List.length_cons, decide_eq_true hd]
  omega

theorem shiftIdx_cons_of_gt (d : Nat) (ds : List Nat) (p : Nat)
    (hd : p ≤ d) : shiftIdx (d :: ds) p = shiftIdx ds p := by
  simp only [shiftIdx, List.filter]
  have : decide (d < p) = false := by simp; omega
  simp [this]

/-- Full specification of the collection phase: every collected index is
in range, not important, and satisfies the eligibility test; the indices
are strictly ascending; the reported total is the accumulator plus the
tokens at the collected indices; and if the total never reached
`required` (the break never fired) then every eligible index was
collected. -/
theorem collectLoop_spec (cond : Entry → Bool) (important : Finset Nat)
    (required : Int) :
    ∀ (l : List Entry) (i0 : Nat) (acc : Int),
      (∀ j ∈ (collectLoop cond important required l i0 acc).1,
          i0 ≤ j ∧ j - i0 < l.length ∧ j ∉ important ∧
          ∃ e, l.get? (j - i0) = some e ∧ cond e = true) ∧
      (collectLoop cond important required l i0 acc).1.Pairwise (· < ·) ∧
      (collectLoop cond important required l i0 acc).2
        = acc + ((collectLoop cond important required l i0 acc).1.map
            (fun j => tokensAt l (j - i0))).sum ∧
      (¬ required ≤ (collectLoop cond important required l i0 acc).2 →
        ∀ (p : Nat) (e : Entry), l.get? p = some e → (i0 + p) ∉ important →
          cond e = true →
          (i0 + p) ∈ (collectLoop cond important required l i0 acc).1) := by
  intro l
  induction l with
  | nil =>
    intro i0 acc
    refine ⟨by simp [collectLoop], by simp [collectLoop], by simp [collectLoop], ?_⟩
    intro _ p e hp
    simp at hp
  | cons e rest ih =>
    intro i0 acc
    by_cases hcond : i0 ∉ important ∧ cond e = true
    · by_cases hreq : required ≤ acc + e.tokens
      · have hunf : collectLoop cond important required (e :: rest) i0 acc
            = ([i0], acc + e.tokens) := by
          simp [collectLoop, hcond, hreq]
        refine ⟨?_, ?_, ?_, ?_⟩
        · intro j hj
          rw [hunf] at hj
          simp only [List.mem_singleton] at hj
          subst hj
          exact ⟨le_refl _, by simp, hcond.1, e, by simp, hcond.2⟩
        · rw [hunf]; simp
        · rw [hunf]; simp [tokensAt]
        · intro hfail
          rw [hunf] at hfail
          exact absurd hreq hfail
      · have hunf : collectLoop cond important required (e :: rest) i0 acc
            = (i0 :: (collectLoop cond important required rest (i0 + 1)
                (acc + e.tokens)).1,
               (collectLoop cond important required rest (i0 + 1)
                (acc + e.tokens)).2) := by
          simp [collectLoop, hcond, hreq]
        obtain ⟨iha, ihb, ihc, ihd⟩ := ih (i0 + 1) (acc + e.tokens)
        refine ⟨?_, ?_, ?_, ?_⟩
        · intro j hj
          rw [hunf] at hj
          simp only [List.mem_cons] at hj
          rcases hj with rfl | hj
          · exact ⟨le_refl _, by simp, hcond.1, e, by simp, hcond.2⟩
          · obtain ⟨h1, h2, h3, e', he', hce'⟩ := iha j hj
            refine ⟨by omega, by simp; omega, h3, e', ?_, hce'⟩
            have hji : j - i0 = (j - (i0 + 1)) + 1 := by omega
            rw [hji, List.get?_cons_succ]
            exact he'
        · rw [hunf]
          exact List.pairwise_cons.mpr
            ⟨fun j hj => by have := (iha j hj).1; omega, ihb⟩
        · rw [hunf]
          simp only [List.map_cons, List.sum_cons, Nat.sub_self]
          have hhead : tokensAt (e :: rest) 0 = e.tokens := rfl
          rw [hhead]
          have hmap : (collectLoop cond important required rest (i0 + 1)
                (acc + e.tokens)).1.map (fun j => tokensAt (e :: rest) (j - i0))
              = (collectLoop cond important required rest (i0 + 1)
                (acc + e.tokens)).1.map (fun j => tokensAt rest (j - (i0 + 1))) := by
            refine List.map_congr_left fun j hj => ?_
            have h1 := (iha j hj).1
            have hji : j - i0 = (j - (i0 + 1)) + 1 := by omega
            rw [hji]
            simp [tokensAt]
          rw [hmap]
          omega
        · intro hfail p ep hp hpimp hpc
          rw [hunf] at hfail ⊢
          simp only at hfail
          cases p with
          | zero => simp
          | succ p' =>
            rw [List.get?_cons_succ] at hp
            have : (i0 + 1 + p') ∈ (collectLoop cond important required rest
                (i0 + 1) (acc + e.tokens)).1 := by
              refine ihd hfail p' ep hp ?_ hpc
              have : i0 + 1 + p' = i0 + (p' + 1) := by omega
              rw [this]; exact hpimp
            have heq : i0 + (p' + 1) = i0 + 1 + p' := by omega
            rw [heq]
            exact List.mem_cons_of_mem _ this
    · have hunf : collectLoop cond important required (e :: rest) i0 acc
          = collectLoop cond important required rest (i0 + 1) acc := by
        simp only [collectLoop, if_neg hcond]
      obtain ⟨iha, ihb, ihc, ihd⟩ := ih (i0 + 1) acc
      refine ⟨?_, ?_, ?_, ?_⟩
      · intro j hj
        rw [hunf] at hj
        obtain ⟨h1, h2, h3, e', he', hce'⟩ := iha j hj
        refine ⟨by omega, by simp; omega, h3, e', ?_, hce'⟩
        have hji : j - i0 = (j - (i0 + 1)) + 1 := by omega
        rw [hji, List.get?_cons_succ]
        exact he'
      · rw [hunf]; exact ihb
      · rw [hunf]
        have hmap : (collectLoop cond important required rest (i0 + 1)
              acc).1.map (fun j => tokensAt (e :: rest) (j - i0))
            = (collectLoop cond important required rest (i0 + 1)
              acc).1.map (fun j => tokensAt rest (j - (i0 + 1))) := by
          refine List.map_congr_left fun j hj => ?_
          have h1 := (iha j hj).1
          have hji : j - i0 = (j - (i0 + 1)) + 1 := by omega
          rw [hji]
          simp [tokensAt]
        rw [hmap]
        exact ihc
      · intro hfail p ep hp hpimp hpc
        rw [hunf] at hfail ⊢
        cases p with
        | zero =>
          rw [List.get?_cons_zero] at hp
          injection hp with hp
          subst hp
          simp only [Nat.add_zero] at hpimp
          exact absurd ⟨hpimp, hpc⟩ hcond
        | succ p' =>
          rw [List.get?_cons_succ] at hp
          have : (i0 + 1 + p') ∈ (collectLoop cond important required rest
              (i0 + 1) acc).1 := by
            refine ihd hfail p' ep hp ?_ hpc
            have : i0 + 1 + p' = i0 + (p' + 1) := by omega
            rw [this]; exact hpimp
          have heq : i0 + (p' + 1) = i0 + 1 + p' := by omega
          rw [heq]
          exact this

theorem eraseMarked_of_lt (ds : List Nat) :
    ∀ (l : List Entry) (i0 : Nat), (∀ j ∈ ds, j < i0) →
      eraseMarked ds l i0 = l := by
  intro l
  induction l with
  | nil => intro i0 _; rfl
  | cons e rest ih =>
    intro i0 h
    have : i0 ∉ ds := fun hmem => absurd (h i0 hmem) (lt_irrefl i0)
    simp only [eraseMarked, if_neg this]
    rw [ih (i0 + 1) fun j hj => Nat.lt_succ_of_lt (h j hj)]

theorem eraseMarked_eraseIdx (ds : List Nat) (d : Nat)
    (hds : ∀ j ∈ ds, j < d) :
    ∀ (l : List Entry) (i0 : Nat), i0 ≤ d →
      eraseMarked ds (l.eraseIdx (d - i0)) i0 = eraseMarked (d :: ds) l i0 := by
  intro l
  induction l with
  | nil => intro i0 _; simp [List.eraseIdx, eraseMarked]
  | cons e rest ih =>
    intro i0 hi0
    rcases Nat.eq_or_lt_of_le hi0 with heq | hlt
    · subst heq
      have h0 : i0 - i0 = 0 := Nat.sub_self i0
      rw [h0]
      have hin : i0 ∈ i0 :: ds := List.mem_cons_self i0 ds
      simp only [List.eraseIdx, eraseMarked, if_pos hin]
      rw [eraseMarked_of_lt ds rest i0 hds,
        eraseMarked_of_lt (i0 :: ds) rest (i0 + 1) ?_]
      intro j hj
      rcases List.mem_cons.mp hj with rfl | hj
      · omega
      · exact Nat.lt_succ_of_lt (hds j hj)
    · have hsub : d - i0 = (d - (i0 + 1)) + 1 := by omega
      rw [hsub]
      have hne : i0 ∈ d :: ds ↔ i0 ∈ ds := by
        constructor
        · intro h
          rcases List.mem_cons.mp h with rfl | h
          · omega
          · exact h
        · exact fun h => List.mem_cons_of_mem d h
      by_cases hmem : i0 ∈ ds
      · simp only [List.eraseIdx, eraseMarked, if_pos hmem,
          if_pos (hne.mpr hmem)]
        exact ih (i0 + 1) hlt
      · simp only [List.eraseIdx, eraseMarked, if_neg hmem,
          if_neg (fun h => hmem (hne.mp h))]
        rw [ih (i0 + 1) hlt]

/-- Specification of the phase that removes the collected positions in
reverse order (`ds` is the reversed, strictly descending, in-range list
of positions): the token count drops by exactly the tokens at the removed
positions, the history becomes the position-filtered list, every
surviving position moves to its shifted index, shifted important marks
survive, and the other fields are untouched. -/
theorem foldl_removeAt_spec (ds : List Nat) :
    ∀ (cm : ContextManager),
      ds.Pairwise (· > ·) →
      (∀ d ∈ ds, d < cm.context_history.length) →
      (ds.foldl ContextManager.removeAt cm).current_tokens
          = cm.current_tokens - (ds.map (tokensAt cm.context_history)).sum ∧
      (ds.foldl ContextManager.removeAt cm).context_history
          = eraseMarked ds cm.context_history 0 ∧
      (ds.foldl ContextManager.removeAt cm).context_history.length
          = cm.context_history.length - ds.length ∧
      (∀ p, p ∉ ds → p < cm.context_history.length →
        (ds.foldl ContextManager.removeAt cm).context_history.get? (shiftIdx ds p)
          = cm.context_history.get? p) ∧
      (∀ idx, idx ∈ cm.important_entries → idx ∉ ds →
        shiftIdx ds idx ∈ (ds.foldl ContextManager.removeAt cm).important_entries) ∧
      (ds.foldl ContextManager.removeAt cm).max_tokens = cm.max_tokens ∧
      (ds.foldl ContextManager.removeAt cm).compaction_strategy
          = cm.compaction_strategy := by
  induction ds with
  | nil =>
    intro cm _ _
    refine ⟨by simp, ?_, by simp, ?_, ?_, rfl, rfl⟩
    · exact (eraseMarked_of_lt [] cm.context_history 0 (by simp)).symm
    · intro p _ _; rfl
    · intro idx h _; simpa [shiftIdx] using h
  | cons d ds ih =>
    intro cm hpw hbound
    obtain ⟨hall, hpw'⟩ := List.pairwise_cons.mp hpw
    have hdlen : d < cm.context_history.length :=
      hbound d (List.mem_cons_self d ds)
    have hfold : (d :: ds).foldl ContextManager.removeAt cm
        = ds.foldl ContextManager.removeAt (cm.removeAt d) := rfl
    have hhist1 : (cm.removeAt d).context_history
        = cm.context_history.eraseIdx d := rfl
    have hlen1 : (cm.removeAt d).context_history.length
        = cm.context_history.length - 1 := by
      rw [hhist1, List.length_eraseIdx]
      simp [hdlen]
    have hbound' : ∀ j ∈ ds, j < (cm.removeAt d).context_history.length := by
      intro j hj
      have := hall j hj
      rw [hlen1]
      omega
    obtain ⟨ih1, ih2, ih3, ih4, ih5, ih6, ih7⟩ :=
      ih (cm.removeAt d) hpw' hbound'
    refine ⟨?_, ?_, ?_, ?_, ?_, ?_, ?_⟩
    · rw [hfold, ih1]
      have hcur1 : (cm.removeAt d).current_tokens
          = cm.current_tokens - tokensAt cm.context_history d := rfl
      have hmap : ds.map (tokensAt (cm.removeAt d).context_history)
          = ds.map (tokensAt cm.context_history) := by
        refine List.map_congr_left fun j hj => ?_
        have hjd := hall j hj
        rw [hhist1]
        simp only [tokensAt, get?_eraseIdx_of_lt _ d j hjd]
      rw [hmap, hcur1]
      simp only [List.map_cons, List.sum_cons]
      omega
    · rw [hfold, ih2, hhist1]
      have := eraseMarked_eraseIdx ds d hall cm.context_history 0 (Nat.zero_le d)
      simpa using this
    · rw [hfold, ih3, hlen1, List.length_cons]
      omega
    · intro p hp hplen
      have hpne : p ≠ d := fun h => hp (h ▸ List.mem_cons_self d ds)
      have hpds : p ∉ ds := fun h => hp (List.mem_cons_of_mem d h)
      rcases Nat.lt_or_ge p d with hpd | hpd
      · have hq : p < (cm.removeAt d).context_history.length := by
          rw [hlen1]; omega
        have := ih4 p hpds hq
        rw [hfold]
        rw [shiftIdx_cons_of_gt d ds p (Nat.le_of_lt hpd)]
        rw [this, hhist1, get?_eraseIdx_of_lt _ d p hpd]
      · have hdp : d < p := by omega
        have hp1ds : p - 1 ∉ ds := by
          intro h
          have := hall (p - 1) h
          omega
        have hq : p - 1 < (cm.removeAt d).context_history.length := by
          rw [hlen1]; omega
        have := ih4 (p - 1) hp1ds hq
        rw [hfold]
        rw [shiftIdx_cons_of_all_lt d ds p hdp hall]
        rw [this, hhist1, get?_eraseIdx_of_ge _ d (p - 1) (by omega)]
        have : p - 1 + 1 = p := by omega
        rw [this]
    · intro idx hidx hnidx
      have hne : idx ≠ d := fun h => hnidx (h ▸ List.mem_cons_self d ds)
      have hnds : idx ∉ ds := fun h => hnidx (List.mem_cons_of_mem d h)
      have hstep : (if d < idx then idx - 1 else idx)
          ∈ (cm.removeAt d).important_entries :=
        Finset.mem_image_of_mem _ hidx
      rw [hfold]
      rcases Nat.lt_or_ge d idx with hdi | hdi
      · have hidx1ds : idx - 1 ∉ ds := by
          intro h
          have := hall (idx - 1) h
          omega
        have := ih5 (idx - 1) (by simpa [if_pos hdi] using hstep) hidx1ds
        rwa [shiftIdx_cons_of_all_lt d ds idx hdi hall]
      · have hidxlt : idx < d := by omega
        have := ih5 idx (by simpa [if_neg (by omega : ¬ d < idx)] using hstep) hnds
        rwa [shiftIdx_cons_of_gt d ds idx (by omega)]
    · rw [hfold, ih6]; rfl
    · rw [hfold, ih7]; rfl

theorem eraseMarked_membership_congr (ds ds' : List Nat)
    (h : ∀ j, j ∈ ds ↔ j ∈ ds') :
    ∀ (l : List Entry) (i0 : Nat), eraseMarked ds l i0 = eraseMarked ds' l i0 := by
  intro l
  induction l with
  | nil => intro i0; rfl
  | cons e rest ih =>
    intro i0
    by_cases hmem : i0 ∈ ds
    · simp only [eraseMarked, if_pos hmem, if_pos ((h i0).mp hmem)]
      exact ih (i0 + 1)
    · simp only [eraseMarked, if_neg hmem, if_neg (fun hm => hmem ((h i0).mpr hm))]
      rw [ih (i0 + 1)]

theorem shiftIdx_reverse (ds : List Nat) (p : Nat) :
    shiftIdx ds.reverse p = shiftIdx ds p := by
  simp only [shiftIdx, List.filter_reverse, List.length_reverse]

/-- Strict monotonicity of the renumbering on surviving indices. -/
theorem shiftIdx_strictMono (ds : List Nat) :
    ds.Pairwise (· > ·) →
    ∀ p q : Nat, p ∉ ds → p < q → shiftIdx ds p < shiftIdx ds q := by
  induction ds with
  | nil => intro _ p q _ h; simpa [shiftIdx_nil] using h
  | cons d ds ih =>
    intro hpw p q hp hpq
    obtain ⟨hall, hpw'⟩ := List.pairwise_cons.mp hpw
    have hpne : p ≠ d := fun h => hp (h ▸ List.mem_cons_self d ds)
    have hpds : p ∉ ds := fun h => hp (List.mem_cons_of_mem d h)
    rcases Nat.lt_or_ge d q with hdq | hdq
    · rw [shiftIdx_cons_of_all_lt d ds q hdq hall]
      rcases Nat.lt_or_ge d p with hdp | hdp
      · rw [shiftIdx_cons_of_all_lt d ds p hdp hall]
        have hp1 : p - 1 ∉ ds := by
          intro h
          have := hall (p - 1) h
          omega
        exact ih hpw' (p - 1) (q - 1) hp1 (by omega)
      · rw [shiftIdx_cons_of_gt d ds p hdp]
        have hplt : p < d := by omega
        exact ih hpw' p (q - 1) hpds (by omega)
    · rw [shiftIdx_cons_of_gt d ds q hdq, shiftIdx_cons_of_gt d ds p (by omega)]
      exact ih hpw' p q hpds hpq

theorem compactByImportance_eq (cm : ContextManager) (req : Int) :
    cm.compactByImportance req
      = (removalResult (fun e => decide (e.importance < 5)) cm req,
         decide (req ≤ (collectFor (fun e => decide (e.importance < 5)) cm req).2)) :=
  rfl

theorem compactByTruncation_eq (cm : ContextManager) (req : Int) :
    cm.compactByTruncation req
      = (removalResult (fun _ => true) cm req,
         decide (req ≤ (collectFor (fun _ => true) cm req).2)) :=
  rfl

/-- Master specification of both removal strategies, transported through
`collectLoop_spec` and `foldl_removeAt_spec`. -/
theorem removalResult_spec (cond : Entry → Bool) (cm : ContextManager)
    (req : Int) :
    (removalResult cond cm req).current_tokens
        = cm.current_tokens - (collectFor cond cm req).2 ∧
    (removalResult cond cm req).max_tokens = cm.max_tokens ∧
    (removalResult cond cm req).compaction_strategy = cm.compaction_strategy ∧
    (removalResult cond cm req).context_history
        = eraseMarked (collectFor cond cm req).1 cm.context_history 0 ∧
    (∀ p, p ∉ (collectFor cond cm req).1 → p < cm.context_history.length →
      (removalResult cond cm req).context_history.get?
          (shiftIdx (collectFor cond cm req).1 p)
        = cm.context_history.get? p) ∧
    (∀ idx, idx ∈ cm.important_entries →
      shiftIdx (collectFor cond cm req).1 idx
        ∈ (removalResult cond cm req).important_entries) := by
  obtain ⟨ha, hb, hc, _⟩ := collectLoop_spec cond cm.important_entries req
    cm.context_history 0 0
  have hpwrev : (collectFor cond cm req).1.reverse.Pairwise (· > ·) :=
    List.pairwise_reverse.mpr hb
  have hboundrev : ∀ d ∈ (collectFor cond cm req).1.reverse,
      d < cm.context_history.length := by
    intro d hd
    have := (ha d (List.mem_reverse.mp hd)).2.1
    simpa using this
  obtain ⟨m1, m2, m3, m4, m5, m6, m7⟩ :=
    foldl_removeAt_spec (collectFor cond cm req).1.reverse cm hpwrev hboundrev
  have hnotin : ∀ idx, idx ∈ cm.important_entries →
      idx ∉ (collectFor cond cm req).1 := by
    intro idx hidx hmem
    exact absurd hidx (ha idx hmem).2.2.1
  unfold removalResult
  refine ⟨?_, m6, m7, ?_, ?_, ?_⟩
  · rw [m1]
    have hsum : ((collectFor cond cm req).1.reverse.map
          (tokensAt cm.context_history)).sum
        = ((collectFor cond cm req).1.map
          (tokensAt cm.context_history)).sum := by
      rw [List.map_reverse, List.sum_reverse]
    rw [hsum]
    have hc' : (collectFor cond cm req).2
        = ((collectFor cond cm req).1.map
            (tokensAt cm.context_history)).sum := by
      have := hc
      simpa [collectFor] using this
    omega
  · rw [m2]
    exact eraseMarked_membership_congr _ _
      (fun j => List.mem_reverse) cm.context_history 0
  · intro p hp hplen
    have := m4 p (fun h => hp (List.mem_reverse.mp h)) hplen
    rwa [shiftIdx_reverse] at this
  · intro idx hidx
    have := m5 idx hidx (fun h => hnotin idx hidx (List.mem_reverse.mp h))
    rwa [shiftIdx_reverse] at this

theorem compactBySummarization_eq (cm : ContextManager) (req : Int) :
    cm.compactBySummarization req
      = ({ cm with
            context_history := (summarizeGo cm.important_entries req
              (cm.context_history.length / 2) 0 0 cm.context_history).1
            current_tokens := cm.current_tokens
              - (summarizeGo cm.important_entries req
                (cm.context_history.length / 2) 0 0 cm.context_history).2 },
         decide (req ≤ (summarizeGo cm.important_entries req
            (cm.context_history.length / 2) 0 0 cm.context_history).2)) :=
  rfl

/-- Whenever `compact_context` reports success it has freed at least the
requested tokens, so the new `current_tokens` is at most the old value
minus the request; `max_tokens` is never touched. -/
theorem compact_success_bound (cm : ContextManager) (req : Int)
    (h : (cm.compact_context req).2 = true) :
    (cm.compact_context req).1.current_tokens ≤ cm.current_tokens - req ∧
    (cm.compact_context req).1.max_tokens = cm.max_tokens := by
  by_cases h1 : cm.compaction_strategy = "importance"
  · simp only [ContextManager.compact_context, if_pos h1] at h ⊢
    rw [compactByImportance_eq] at h ⊢
    have hreq : req ≤ (collectFor (fun e => decide (e.importance < 5)) cm req).2 :=
      of_decide_eq_true h
    obtain ⟨r1, r2, -, -, -, -⟩ :=
      removalResult_spec (fun e => decide (e.importance < 5)) cm req
    exact ⟨by simpa [r1] using by omega, r2⟩
  · by_cases h2 : cm.compaction_strategy = "summarize"
    · simp only [ContextManager.compact_context, if_neg h1, if_pos h2] at h ⊢
      rw [compactBySummarization_eq] at h ⊢
      have hreq : req ≤ (summarizeGo cm.important_entries req
          (cm.context_history.length / 2) 0 0 cm.context_history).2 :=
        of_decide_eq_true h
      exact ⟨by simp; omega, rfl⟩
    · by_cases h3 : cm.compaction_strategy = "truncate"
      · simp only [ContextManager.compact_context, if_neg h1, if_neg h2,
          if_pos h3] at h ⊢
        rw [compactByTruncation_eq] at h ⊢
        have hreq : req ≤ (collectFor (fun _ => true) cm req).2 :=
          of_decide_eq_true h
        obtain ⟨r1, r2, -, -, -, -⟩ :=
          removalResult_spec (fun _ => true) cm req
        exact ⟨by simpa [r1] using by omega, r2⟩
      · simp only [ContextManager.compact_context, if_neg h1, if_neg h2,
          if_neg h3] at h
        exact absurd h (by simp)

theorem appendEntry_current (cm : ContextManager) (content role : String)
    (importance : Int) (metadata : Dict) (now : String) :
    (cm.appendEntry content role importance metadata now).current_tokens
      = cm.current_tokens + ((estimateTokens content : Nat) : Int) := rfl

theorem appendEntry_max (cm : ContextManager) (content role : String)
    (importance : Int) (metadata : Dict) (now : String) :
    (cm.appendEntry content role importance metadata now).max_tokens
      = cm.max_tokens := rfl

/-- C2: starting from a buffer with `currentTokens <= maxTokens`, every
`add_context` call that returns `true` leaves `currentTokens <=
maxTokens`; and when the new entry would overflow the budget,
`add_context` is the compaction run followed — on compaction failure — by
returning `false` with the entry not appended (the result is exactly the
compacted buffer). -/
theorem token_budget_invariant (cm : ContextManager) (content role : String)
    (importance : Int) (metadata : Dict) (now : String)
    (h : cm.current_tokens ≤ cm.max_tokens) :
    ((cm.add_context content role importance metadata now).2 = true →
      (cm.add_context content role importance metadata now).1.current_tokens
        ≤ (cm.add_context content role importance metadata now).1.max_tokens) ∧
    (cm.max_tokens < cm.current_tokens + ((estimateTokens content : Nat) : Int) →
      (cm.compact_context ((estimateTokens content : Nat) : Int)).2 = false →
      (cm.add_context content role importance metadata now).2 = false ∧
      (cm.add_context content role importance metadata now).1
        = (cm.compact_context ((estimateTokens content : Nat) : Int)).1) := by
  constructor
  · intro hok
    by_cases hc : cm.max_tokens
        < cm.current_tokens + ((estimateTokens content : Nat) : Int)
    · simp only [ContextManager.add_context, if_pos hc] at hok ⊢
      by_cases hcc :
          (cm.compact_context ((estimateTokens content : Nat) : Int)).2 = true
      · simp only [if_pos hcc]
        obtain ⟨b1, b2⟩ := compact_success_bound cm
          ((estimateTokens content : Nat) : Int) hcc
        rw [appendEntry_current, appendEntry_max, b2]
        omega
      · simp only [if_neg hcc] at hok
        exact absurd hok (by simp)
    · simp only [ContextManager.add_context, if_neg hc] at hok ⊢
      rw [appendEntry_current, appendEntry_max]
      omega
  · intro hc hfail
    simp only [ContextManager.add_context, if_pos hc, hfail]
    simp

/-- Witness: the budget invariant conclusion holds at the empty buffer
and a four-character content. -/
theorem token_budget_invariant_witness :
    cmEmpty.current_tokens ≤ cmEmpty.max_tokens ∧
    (((cmEmpty.add_context "abcd" "user" 1 [] "t").2 = true →
      (cmEmpty.add_context "abcd" "user" 1 [] "t").1.current_tokens
        ≤ (cmEmpty.add_context "abcd" "user" 1 [] "t").1.max_tokens) ∧
     (cmEmpty.max_tokens < cmEmpty.current_tokens
          + ((estimateTokens "abcd" : Nat) : Int) →
      (cmEmpty.compact_context ((estimateTokens "abcd" : Nat) : Int)).2 = false →
      (cmEmpty.add_context "abcd" "user" 1 [] "t").2 = false ∧
      (cmEmpty.add_context "abcd" "user" 1 [] "t").1
        = (cmEmpty.compact_context ((estimateTokens "abcd" : Nat) : Int)).1)) :=
  ⟨by decide, token_budget_invariant cmEmpty "abcd" "user" 1 [] "t" (by decide)⟩

/-- C4: importance compaction never removes an entry whose importance is
at least 8 or whose index is in the important set — for every buffer
state and every request there is a renumbering `σ` that is strictly
monotone (so relative order is preserved), sends every protected position
to a position holding the same entry afterwards, and keeps every
important-set index pointing at its entry inside the updated important
set. -/
theorem importance_compaction_preserves_protected (cm : ContextManager)
    (req : Int) :
    ∃ σ : Nat → Nat,
      (∀ p q, protectedIdx cm p → p < q → σ p < σ q) ∧
      (∀ p, protectedIdx cm p → p < cm.context_history.length →
        (cm.compactByImportance req).1.context_history.get? (σ p)
          = cm.context_history.get? p) ∧
      (∀ p, p ∈ cm.important_entries →
        σ p ∈ (cm.compactByImportance req).1.important_entries) := by
  obtain ⟨ha, hb, -, -⟩ := collectLoop_spec (fun e => decide (e.importance < 5))
    cm.important_entries req cm.context_history 0 0
  have hprot : ∀ p, protectedIdx cm p →
      p ∉ (collectFor (fun e => decide (e.importance < 5)) cm req).1 := by
    intro p hp hmem
    obtain ⟨-, -, hnotimp, e, hget, hcond⟩ := ha p hmem
    rcases hp with hp | ⟨e', hget', himp'⟩
    · exact hnotimp hp
    · rw [Nat.sub_zero] at hget
      rw [hget] at hget'
      injection hget' with he
      subst he
      have : e.importance < 5 := of_decide_eq_true hcond
      omega
  obtain ⟨-, -, -, -, hget, himp⟩ :=
    removalResult_spec (fun e => decide (e.importance < 5)) cm req
  refine ⟨shiftIdx (collectFor (fun e => decide (e.importance < 5)) cm req).1,
    ?_, ?_, ?_⟩
  · intro p q hp hpq
    have hpw : ((collectFor (fun e => decide (e.importance < 5)) cm
        req).1.reverse).Pairwise (· > ·) := List.pairwise_reverse.mpr hb
    have := shiftIdx_strictMono _ hpw p q
      (fun h => hprot p hp (List.mem_reverse.mp h)) hpq
    rwa [shiftIdx_reverse, shiftIdx_reverse] at this
  · intro p hp hlen
    rw [compactByImportance_eq]
    exact hget p (hprot p hp) hlen
  · intro p hp
    rw [compactByImportance_eq]
    exact himp p hp

/-- Witness: protection of important entries at a concrete buffer and
request. -/
theorem importance_compaction_preserves_protected_witness :
    ∃ σ : Nat → Nat,
      (∀ p q, protectedIdx cmProt p → p < q → σ p < σ q) ∧
      (∀ p, protectedIdx cmProt p → p < cmProt.context_history.length →
        (cmProt.compactByImportance 25).1.context_history.get? (σ p)
          = cmProt.context_history.get? p) ∧
      (∀ p, p ∈ cmProt.important_entries →
        σ p ∈ (cmProt.compactByImportance 25).1.important_entries) :=
  importance_compaction_preserves_protected cmProt 25

/-- C3 counterexample: in the `maxTokens = 40` scenario with adds of 10,
10 and 25 estimated tokens (importance 1 each), the two earlier entries
hold only 20 tokens, so the importance compaction triggered by the third
add cannot free 25 tokens: it fails, the third `add_context` returns
`false`, and the buffer ends with zero entries — not one. -/
theorem eviction_scenario_counterexample :
    estimateTokens contentA = 10 ∧ estimateTokens contentC = 25 ∧
    (cmStep2.compact_context 25).2 = false ∧
    cmStep3.2 = false ∧
    ¬ cmStep3.1.context_history.length = 1 := by decide

/-- C3 amended: the third add triggers importance compaction, which
evicts both earlier entries but frees only their 20 tokens; 20 < 25, so
compaction fails, the third `add_context` returns `false`, the third
entry is not added, and the buffer ends with exactly zero entries and
zero tokens. -/
theorem eviction_scenario_amended :
    estimateTokens contentA = 10 ∧ estimateTokens contentC = 25 ∧
    cmStep2.context_history.length = 2 ∧ cmStep2.current_tokens = 20 ∧
    (cmStep2.compact_context 25).1.context_history.length = 0 ∧
    (cmStep2.compact_context 25).2 = false ∧
    cmStep3.2 = false ∧
    cmStep3.1.context_history.length = 0 ∧
    cmStep3.1.current_tokens = 0 := by decide

theorem eraseMarked_eq_dropEligible (ds : List Nat) (cond : Entry → Bool)
    (imp : Finset Nat) :
    ∀ (l : List Entry) (i0 : Nat),
      (∀ (p : Nat) (e : Entry), l.get? p = some e →
        ((i0 + p) ∈ ds ↔ ((i0 + p) ∉ imp ∧ cond e = true))) →
      eraseMarked ds l i0 = dropEligible cond imp l i0 := by
  intro l
  induction l with
  | nil => intro i0 _; rfl
  | cons e rest ih =>
    intro i0 h
    have h0 : i0 ∈ ds ↔ (i0 ∉ imp ∧ cond e = true) := by
      have := h 0 e (by rfl)
      simpa using this
    have hrest : ∀ (p : Nat) (e' : Entry), rest.get? p = some e' →
        ((i0 + 1 + p) ∈ ds ↔ ((i0 + 1 + p) ∉ imp ∧ cond e' = true)) := by
      intro p e' hp
      have := h (p + 1) e' (by simpa using hp)
      have harith : i0 + (p + 1) = i0 + 1 + p := by omega
      rwa [harith] at this
    by_cases hm : i0 ∈ ds
    · have he := h0.mp hm
      simp only [eraseMarked, if_pos hm, dropEligible, if_pos he]
      exact ih (i0 + 1) hrest
    · have hne : ¬ (i0 ∉ imp ∧ cond e = true) := fun hc => hm (h0.mpr hc)
      simp only [eraseMarked, if_neg hm, dropEligible, if_neg hne]
      rw [ih (i0 + 1) hrest]

/-- When the collection scan never reaches the requested total, every
eligible entry was collected and therefore removed: the surviving history
is exactly the eligibility-filtered list. -/
theorem removal_failure_drops_all (cond : Entry → Bool) (cm : ContextManager)
    (req : Int) (h : ¬ req ≤ (collectFor cond cm req).2) :
    (removalResult cond cm req).context_history
      = dropEligible cond cm.important_entries cm.context_history 0 := by
  obtain ⟨ha, -, -, hd⟩ := collectLoop_spec cond cm.important_entries req
    cm.context_history 0 0
  obtain ⟨-, -, -, hist, -, -⟩ := removalResult_spec cond cm req
  rw [hist]
  apply eraseMarked_eq_dropEligible
  intro p e hget
  constructor
  · intro hmem
    obtain ⟨-, -, hni, e', hget', hcond⟩ := ha (0 + p) hmem
    rw [Nat.sub_zero, Nat.zero_add] at hget'
    rw [hget] at hget'
    injection hget' with he
    subst he
    exact ⟨by simpa using hni, hcond⟩
  · intro hc
    have := hd h p e hget (by simpa using hc.1) hc.2
    simpa using this

/-- C9 (implicit): a failed `add_context` is not atomic.  Under the
importance and truncate strategies, whenever compaction reports failure
every eligible entry has nevertheless already been removed (the history
is exactly the eligibility-filtered list); concretely, the third add of
the 10/10/25 scenario returns `false` while shrinking the buffer from two
entries and 20 tokens to zero entries and zero tokens, with the new entry
not added. -/
theorem failed_add_context_not_atomic (cm : ContextManager) (req : Int) :
    ((cm.compactByImportance req).2 = false →
      (cm.compactByImportance req).1.context_history
        = dropEligible (fun e => decide (e.importance < 5))
            cm.important_entries cm.context_history 0) ∧
    ((cm.compactByTruncation req).2 = false →
      (cm.compactByTruncation req).1.context_history
        = dropEligible (fun _ => true)
            cm.important_entries cm.context_history 0) ∧
    ((cmStep2.add_context contentC "user" 1 [] "t3").2 = false ∧
      cmStep2.context_history.length = 2 ∧
      (cmStep2.add_context contentC "user" 1 [] "t3").1.context_history.length
        = 0 ∧
      cmStep2.current_tokens = 20 ∧
      (cmStep2.add_context contentC "user" 1 [] "t3").1.current_tokens = 0) := by
  refine ⟨?_, ?_, by decide⟩
  · intro hfail
    rw [compactByImportance_eq] at hfail ⊢
    have : ¬ req ≤ (collectFor (fun e => decide (e.importance < 5)) cm req).2 := by
      intro hle
      simp [decide_eq_true hle] at hfail
    exact removal_failure_drops_all _ cm req this
  · intro hfail
    rw [compactByTruncation_eq] at hfail ⊢
    have : ¬ req ≤ (collectFor (fun _ => true) cm req).2 := by
      intro hle
      simp [decide_eq_true hle] at hfail
    exact removal_failure_drops_all _ cm req this

/-- Witness: the non-atomicity characterization instantiated at the
concrete two-entry buffer whose importance compaction fails on a request
of 25 tokens. -/
theorem failed_add_context_not_atomic_witness :
    (cmStep2.compactByImportance 25).2 = false ∧
    (cmStep2.compactByImportance 25).1.context_history
      = dropEligible (fun e => decide (e.importance < 5))
          cmStep2.important_entries cmStep2.context_history 0 :=
  ⟨by decide,
   (failed_add_context_not_atomic cmStep2 25).1 (by decide)⟩

/-- C5 counterexample: `resume()` on an Operation with an empty
checkpoint list need not raise the no-checkpoint error — on a fresh
`pending` Operation (whose checkpoint list is empty) it raises the
invalid-transition error instead, because the status check precedes the
checkpoint check. -/
theorem operation_misuse_counterexample :
    opFresh.checkpoints = [] ∧
    opFresh.resume ⟨"2024-01-01T00:00:01"⟩
      = .error (.invalidResume .pending) ∧
    OpError.invalidResume .pending ≠ OpError.noCheckpoint :=
  ⟨rfl, rfl, by decide⟩

/-- C5 amended: `pause()` outside `running` raises the invalid-transition
error and leaves the Operation unchanged (the raise precedes any
mutation, so the embedding returns no new state); `resume()` outside
`paused` raises the invalid-transition error; and `resume()` on a
*paused* Operation with an empty checkpoint list raises the no-checkpoint
error. -/
theorem operation_misuse_raises (op : LongRunningOperation)
    (d : Option Dict) (now : Datetime) :
    (op.status ≠ .running → op.pause d now = .error (.invalidPause op.status)) ∧
    (op.status ≠ .paused → op.resume now = .error (.invalidResume op.status)) ∧
    (op.status = .paused → op.checkpoints = [] →
      op.resume now = .error .noCheckpoint) := by
  refine ⟨?_, ?_, ?_⟩
  · intro h
    simp [LongRunningOperation.pause, h]
  · intro h
    simp [LongRunningOperation.resume, h]
  · intro h hcp
    simp [LongRunningOperation.resume, h, hcp]

/-- Witness: the three misuse errors at concrete operations — a fresh
`pending` one for the transition errors and a `paused` one with no
checkpoints for the no-checkpoint error. -/
theorem operation_misuse_raises_witness :
    (opFresh.status ≠ .running ∧
      opFresh.pause none ⟨"t"⟩ = .error (.invalidPause .pending)) ∧
    (opFresh.status ≠ .paused ∧
      opFresh.resume ⟨"t"⟩ = .error (.invalidResume .pending)) ∧
    (opPausedEmpty.status = .paused ∧ opPausedEmpty.checkpoints = [] ∧
      opPausedEmpty.resume ⟨"t"⟩ = .error .noCheckpoint) :=
  ⟨⟨by decide, (operation_misuse_raises opFresh none ⟨"t"⟩).1 (by decide)⟩,
   ⟨by decide, (operation_misuse_raises opFresh none ⟨"t"⟩).2.1 (by decide)⟩,
   ⟨rfl, rfl, (operation_misuse_raises opPausedEmpty none ⟨"t"⟩).2.2 rfl rfl⟩⟩

/-- C6: on a running Operation, `pause` appends exactly one checkpoint
whose id is the count of prior checkpoints (the Nth pause yields index
N−1) and whose snapshot is the state at pause time, then moves to
`paused`; on a paused Operation, `resume` moves back to `running` and
replaces the state with the last checkpoint's snapshot; in the concrete
scenario the restored state has `x = 1` even though `update_state` set
`x` to 2 after the checkpoint was taken. -/
theorem checkpoint_numbering_and_restore (op : LongRunningOperation)
    (d : Option Dict) (now now' : Datetime) :
    (op.status = .running →
      op.pause d now = .ok
        { op with
          checkpoints := op.checkpoints ++
            [{ checkpoint_id := op.checkpoints.length
               timestamp := now.iso
               state := op.state
               data := d.getD [] }]
          status := .paused
          updated_at := now }) ∧
    (∀ cps c, op.status = .paused → op.checkpoints = cps ++ [c] →
      op.resume now' = .ok
        ({ op with state := c.state, status := .running, updated_at := now' },
         c.state)) ∧
    ((opScenario.map fun r => r.1.status) = .ok .running ∧
     (opScenario.map fun r => dictGet r.1.state "x") = .ok (some (.vInt 1)) ∧
     (opScenario.map fun r => dictGet r.2 "x") = .ok (some (.vInt 1)) ∧
     (opScenario.map fun r => r.1.checkpoints.map Checkpoint.checkpoint_id)
       = .ok [0]) := by
  refine ⟨?_, ?_, rfl, rfl, rfl, rfl⟩
  · intro h
    simp [LongRunningOperation.pause, h]
  · intro cps c h hcp
    have hlast : op.checkpoints.getLast? = some c := by
      rw [hcp]
      simp
    simp [LongRunningOperation.resume, h, hlast]

/-- Witness: the pause and resume characterizations at concrete running
and paused operations. -/
theorem checkpoint_numbering_and_restore_witness :
    (opRun.status = .running ∧
      opRun.pause none ⟨"t3"⟩ = .ok
        { opRun with
          checkpoints := opRun.checkpoints ++
            [{ checkpoint_id := opRun.checkpoints.length
               timestamp := "t3"
               state := opRun.state
               data := [] }]
          status := .paused
          updated_at := ⟨"t3"⟩ }) ∧
    (opPausedOne.status = .paused ∧ opPausedOne.checkpoints = [] ++ [cpZero] ∧
      opPausedOne.resume ⟨"t5"⟩ = .ok
        ({ opPausedOne with
            state := cpZero.state
            status := .running
            updated_at := ⟨"t5"⟩ },
         cpZero.state)) :=
  ⟨⟨rfl, (checkpoint_numbering_and_restore opRun none ⟨"t3"⟩ ⟨"t5"⟩).1 rfl⟩,
   ⟨rfl, rfl,
    (checkpoint_numbering_and_restore opPausedOne none ⟨"t3"⟩ ⟨"t5"⟩).2.1
      [] cpZero rfl rfl⟩⟩

theorem OperationStatus.fromValue_value (s : OperationStatus) :
    OperationStatus.fromValue s.value = some s := by
  cases s <;> rfl

theorem pyOrEmpty_eq (d : Dict) : pyOrEmpty d = d := by
  cases d <;> rfl

/-- C7: deserializing the serialized plain-record form of any Operation
reproduces it exactly — identical status, checkpoints, state, error
message and timestamps — with the record carrying the status as its
string tag and the timestamps as ISO-8601 text. -/
theorem serialization_round_trip (op : LongRunningOperation) :
    LongRunningOperation.from_dict op.to_dict = some op ∧
    op.to_dict.status = op.status.value ∧
    op.to_dict.created_at = op.created_at.iso ∧
    op.to_dict.updated_at = op.updated_at.iso := by
  refine ⟨?_, rfl, rfl, rfl⟩
  obtain ⟨oid, oty, st, cps, stt, ⟨ca⟩, ⟨ua⟩, em⟩ := op
  simp [LongRunningOperation.from_dict, LongRunningOperation.to_dict,
    OperationStatus.fromValue_value, pyOrEmpty_eq]

/-- Successful `pause` implies the operation was running and produces the
checkpointed paused record. -/
theorem pause_ok_inversion (op op' : LongRunningOperation) (d : Option Dict)
    (now : Datetime) (h : op.pause d now = .ok op') :
    op.status = .running ∧
    op'.status = .paused ∧
    op'.checkpoints = op.checkpoints ++
      [{ checkpoint_id := op.checkpoints.length
         timestamp := now.iso
         state := op.state
         data := d.getD [] }] := by
  by_cases hst : op.status ≠ .running
  · simp [LongRunningOperation.pause, hst] at h
  · push_neg at hst
    refine ⟨hst, ?_, ?_⟩ <;>
      · simp [LongRunningOperation.pause, hst] at h
        rw [← h]

/-- Successful `resume` implies the operation was paused and the result
is running. -/
theorem resume_ok_inversion (op op' : LongRunningOperation) (s : Dict)
    (now : Datetime) (h : op.resume now = .ok (op', s)) :
    op.status = .paused ∧ op'.status = .running ∧
    op'.checkpoints = op.checkpoints := by
  by_cases hst : op.status ≠ .paused
  · simp [LongRunningOperation.resume, hst] at h
  · push_neg at hst
    cases hlast : op.checkpoints.getLast? with
    | none => simp [LongRunningOperation.resume, hst, hlast] at h
    | some c =>
      refine ⟨hst, ?_, ?_⟩ <;>
        · simp [LongRunningOperation.resume, hst, hlast] at h
          rw [← h.1]

/-- C10 (implicit): every Operation reachable from the constructor by
start/pause/resume/complete/fail/cancel/updateState satisfies "paused
implies at least one checkpoint", so the no-checkpoint branch of
`resume` can never fire on such an operation (it is reachable only for
operations rebuilt from external records). -/
theorem paused_implies_checkpointed (op : LongRunningOperation)
    (h : Reachable op) :
    (op.status = .paused → op.checkpoints ≠ []) ∧
    (∀ now, op.resume now ≠ .error .noCheckpoint) := by
  have hinv : op.status = .paused → op.checkpoints ≠ [] := by
    induction h with
    | init oid oty st now =>
      intro hh
      simp [LongRunningOperation.init] at hh
    | step_start hr now ih =>
      intro hh
      simp [LongRunningOperation.start] at hh
    | step_pause hr d now op' heq ih =>
      intro hh
      obtain ⟨-, -, hcp⟩ := pause_ok_inversion _ op' d now heq
      rw [hcp]
      simp
    | step_resume hr now op' s heq ih =>
      intro hh
      obtain ⟨-, hst, -⟩ := resume_ok_inversion _ op' s now heq
      rw [hh] at hst
      cases hst
    | step_complete hr r now ih =>
      intro hh
      simp [LongRunningOperation.complete] at hh
    | step_fail hr m now ih =>
      intro hh
      simp [LongRunningOperation.fail] at hh
    | step_cancel hr now ih =>
      intro hh
      simp [LongRunningOperation.cancel] at hh
    | step_update hr k v now ih =>
      intro hh
      exact ih hh
  refine ⟨hinv, ?_⟩
  intro now
  by_cases hst : op.status ≠ .paused
  · simp [LongRunningOperation.resume, hst]
  · push_neg at hst
    cases hlast : op.checkpoints.getLast? with
    | none =>
      have : op.checkpoints = [] := by
        cases hcp : op.checkpoints with
        | nil => rfl
        | cons a l =>
          rw [hcp] at hlast
          simp [List.getLast?] at hlast
      exact absurd this (hinv hst)
    | some c => simp [LongRunningOperation.resume, hst, hlast]

/-- Witness: the invariant and the unreachability of the no-checkpoint
branch at the freshly constructed operation. -/
theorem paused_implies_checkpointed_witness :
    (opFresh.status = .paused → opFresh.checkpoints ≠ []) ∧
    (∀ now, opFresh.resume now ≠ .error .noCheckpoint) :=
  paused_implies_checkpointed opFresh
    (Reachable.init "op1" "portfolio_update" none ⟨"2024-01-01T00:00:00"⟩)

/-- C8 (code bug): with a single queued message whose destination has no
registered handler, each iteration of the `process_messages` loop pops
the message, finds the queue (now empty, hence below the 100 cap)
eligible for re-queueing, and appends the message back — reproducing the
starting state exactly.  The loop guard never fails, so `process_messages`
never terminates and the message is never dropped, contradicting the
claimed 100-miss drop and the code's own "prevent infinite loops"
comment. -/
theorem process_messages_never_terminates :
    A2AProtocol.processStep protocolStuck = some protocolStuck ∧
    ∀ n, protocolStuck.processIters n = protocolStuck := by
  have hstep : A2AProtocol.processStep protocolStuck = some protocolStuck := rfl
  refine ⟨hstep, ?_⟩
  intro n
  induction n with
  | zero => rfl
  | succ n ih =>
    simp only [A2AProtocol.processIters, hstep]
    exact ih
